import Mathlib

/-!
Verification of the DataGrid core (TypeScript sources under `src/core` and
`src/components/DataGrid`): a shallow embedding of the grid state store
(`store.ts`), the row virtualizer and column layout engine (`virtual.ts`),
and the cell-edit failure handler (`GridCell.tsx`), together with theorems
settling the behavioural claims about sorting, virtualization bounds,
pinned-column layout, editing rollback, listener notification and column
visibility.

Modelling conventions:
* JS `Map` and plain-object field maps become association lists with
  JS semantics: `set` on an existing key replaces the value in place,
  otherwise appends (insertion order preserved); lookup finds the unique
  binding.
* JS cell values are modelled by `JsVal` (numbers as `Int`, strings,
  `null`, `undefined`); an absent object field reads as `undefined`,
  matching JS property access.
* JS numbers used for pixel geometry are modelled as `Int`;
  `Math.floor(a / b)` becomes `Int.fdiv` and `Math.ceil(a / b)` its dual.
-/

namespace DataGrid

/-- JS runtime values stored in grid cells (`unknown` in the source).
Mixed-type relational comparison via JS coercion is not modelled: no claim
compares values of different types, and the sort comparator only reaches
`<`/`>` after its null/undefined guards. -/
inductive JsVal where
  | num (n : Int)
  | str (s : String)
  | null
  | undef
deriving DecidableEq, Repr

/-- `RowId = string | number` from `types.ts`; JS `Map` keys distinguish
the string `"1"` from the number `1`, hence a sum. -/
inductive RowId where
  | str (s : String)
  | num (n : Int)
deriving DecidableEq, Repr

/-- Association-list lookup: the model of JS `Map.get` and object
property access (keys are unique by construction of `alistSet`). -/
def alistGet {κ ν : Type} [DecidableEq κ] : List (κ × ν) → κ → Option ν
  | [], _ => none
  | (k', v) :: rest, k => if k' = k then some v else alistGet rest k

/-- Association-list insert with JS `Map.set` / object-spread semantics:
an existing key keeps its position and gets the new value; a new key is
appended at the end. -/
def alistSet {κ ν : Type} [DecidableEq κ] : List (κ × ν) → κ → ν → List (κ × ν)
  | [], k, v => [(k, v)]
  | (k', v') :: rest, k, v =>
    if k' = k then (k, v) :: rest else (k', v') :: alistSet rest k v

@[simp] theorem alistGet_alistSet_self {κ ν : Type} [DecidableEq κ]
    (m : List (κ × ν)) (k : κ) (v : ν) : alistGet (alistSet m k v) k = some v := by
  induction m with
  | nil => simp [alistGet, alistSet]
  | cons hd tl ih =>
    obtain ⟨k', v'⟩ := hd
    by_cases h : k' = k
    · simp [alistGet, alistSet, h]
    · simp [alistGet, alistSet, h, ih]

@[simp] theorem alistGet_alistSet_ne {κ ν : Type} [DecidableEq κ]
    (m : List (κ × ν)) (k k' : κ) (v : ν) (h : k' ≠ k) :
    alistGet (alistSet m k v) k' = alistGet m k' := by
  induction m with
  | nil => simp [alistGet, alistSet, Ne.symm h]
  | cons hd tl ih =>
    obtain ⟨k0, v0⟩ := hd
    by_cases h0 : k0 = k
    · subst h0
      simp [alistGet, alistSet, Ne.symm h]
    · simp [alistGet, alistSet, h0, ih]

/-- A row is a JS record: field name to value (`Record<string, unknown>`). -/
abbrev Row : Type := List (String × JsVal)

/-- JS property read `row[colId]`: an absent field is `undefined`. -/
def getField (row : Row) (c : String) : JsVal :=
  (alistGet row c).getD JsVal.undef

/-- JS spread update `{ ...row, [colId]: v }`. -/
def setField (row : Row) (c : String) (v : JsVal) : Row :=
  alistSet row c v

@[simp] theorem getField_setField_self (row : Row) (c : String) (v : JsVal) :
    getField (setField row c v) c = v := by
  simp [getField, setField]

@[simp] theorem getField_setField_ne (row : Row) (c c' : String) (v : JsVal)
    (h : c' ≠ c) : getField (setField row c v) c' = getField row c' := by
  simp [getField, setField, alistGet_alistSet_ne _ _ _ _ h]

/-- Sort direction (`'asc' | 'desc'`). -/
inductive Direction where
  | asc
  | desc
deriving DecidableEq, Repr

/-- `SortDescriptor` from `types.ts`. -/
structure SortDescriptor where
  columnId : String
  direction : Direction
deriving DecidableEq, Repr

/-- `EditingState` from `types.ts`; `error : string | null` becomes
`Option String`. -/
structure EditingState where
  rowId : RowId
  colId : String
  value : JsVal
  originalValue : JsVal
  isSaving : Bool
  error : Option String
deriving DecidableEq, Repr

/-- `CellPosition` from `types.ts`. -/
structure CellPosition where
  rowId : RowId
  colId : String
deriving DecidableEq, Repr

/-- `ColumnDef` from `types.ts`, minus the `render` hook (owned by the
rendering layer, opaque to the core and unused by every store action). -/
structure ColumnDef where
  id : String
  title : String
  width : Int
  minWidth : Option Int := none
  maxWidth : Option Int := none
  pinned : Option Direction := none
  resizable : Option Bool := none
  sortable : Option Bool := none
deriving DecidableEq, Repr

/-- `GridState` from `types.ts`. `rowMap : Map<RowId, T>` becomes an
association list, `selectedRows : Set<RowId>` an insertion-ordered list. -/
structure GridState where
  rowMap : List (RowId × Row)
  rowOrder : List RowId
  columns : List ColumnDef
  columnWidths : List (String × Int)
  columnOrder : List String
  pinnedLeft : List String
  pinnedRight : List String
  columnVisibility : List (String × Bool)
  selectedRows : List RowId
  focusedCell : Option CellPosition
  editingCell : Option EditingState
  sort : List SortDescriptor
  scrollTop : Int
  scrollLeft : Int
deriving DecidableEq, Repr

/-- The state of `new GridStore()` with no initial columns. -/
def emptyState : GridState :=
  { rowMap := [], rowOrder := [], columns := [], columnWidths := []
    columnOrder := [], pinnedLeft := [], pinnedRight := []
    columnVisibility := [], selectedRows := [], focusedCell := none
    editingCell := none, sort := [], scrollTop := 0, scrollLeft := 0 }

/-! ## The sort comparator (`store.ts`, `sortRows`) -/

/-- JS strict equality `===` restricted to `JsVal`. -/
def strictEq : JsVal → JsVal → Bool
  | JsVal.num a, JsVal.num b => a == b
  | JsVal.str a, JsVal.str b => a == b
  | JsVal.null, JsVal.null => true
  | JsVal.undef, JsVal.undef => true
  | _, _ => false

/-- JS loose null test `v == null` (true for both `null` and `undefined`). -/
def isNullish : JsVal → Bool
  | JsVal.null => true
  | JsVal.undef => true
  | _ => false

/-- JS `<` on same-typed operands (numbers, strings). The comparator
reaches this only with both operands non-nullish; heterogeneous coercing
comparisons are not exercised by any claim and yield `false` here. -/
def jsLt : JsVal → JsVal → Bool
  | JsVal.num a, JsVal.num b => a < b
  | JsVal.str a, JsVal.str b => a < b
  | _, _ => false

/-- JS `>` on same-typed operands, see `jsLt`. -/
def jsGt : JsVal → JsVal → Bool
  | JsVal.num a, JsVal.num b => b < a
  | JsVal.str a, JsVal.str b => b < a
  | _, _ => false

/-- The multi-column comparator body from `sortRows`: iterate descriptors
in priority order; `continue` on strict equality; on difference return the
null-check or relational result multiplied by the direction sign. -/
def rowCompare : List SortDescriptor → Row → Row → Int
  | [], _, _ => 0
  | s :: rest, rowA, rowB =>
    let valA := getField rowA s.columnId
    let valB := getField rowB s.columnId
    if strictEq valA valB then rowCompare rest rowA rowB
    else
      let direction : Int := if s.direction = Direction.asc then 1 else -1
      if isNullish valA then 1 * direction
      else if isNullish valB then (-1) * direction
      else if jsLt valA valB then (-1) * direction
      else if jsGt valA valB then 1 * direction
      else rowCompare rest rowA rowB

/-- The id-level comparator passed to `Array.prototype.sort`: ids missing
from `rowMap` compare equal (`if (!rowA || !rowB) return 0`). -/
def idCompare (s : GridState) (aId bId : RowId) : Int :=
  match alistGet s.rowMap aId, alistGet s.rowMap bId with
  | some rowA, some rowB => rowCompare s.sort rowA rowB
  | _, _ => 0

/-- Insert `x` after every already-placed element `y` with `le y x`
(so elements comparing equal keep their earlier relative order). -/
def stableInsert {α : Type} (le : α → α → Bool) (x : α) : List α → List α
  | [] => [x]
  | y :: ys => if le y x then y :: stableInsert le x ys else x :: y :: ys

/-- A stable sort by a boolean non-strict order: the model of JS
`Array.prototype.sort`, which is required to be stable. Every stable sort
agrees on consistent comparators, so the choice of algorithm (insertion
sort here, TimSort in V8) is immaterial. -/
def jsStableSort {α : Type} (le : α → α → Bool) (l : List α) : List α :=
  l.foldl (fun acc x => stableInsert le x acc) []

/-- `sortRows`: with no active sort, return (a copy of) the current
`rowOrder`; otherwise sort it stably by the comparator (`a` before `b`
when the comparator is non-positive). -/
def sortRows (s : GridState) : List RowId :=
  if s.sort = [] then s.rowOrder
  else jsStableSort (fun aId bId => idCompare s aId bId ≤ 0) s.rowOrder

/-! ## Store actions (`store.ts`) -/

/-- `toggleSort(columnId, multi)`. -/
def toggleSort (s : GridState) (columnId : String) (multi : Bool) : GridState :=
  let existingSort := s.sort.find? (fun d => d.columnId == columnId)
  let newSort : List SortDescriptor :=
    if multi = false then
      match existingSort with
      | some e =>
        if e.direction = Direction.asc then [⟨columnId, Direction.desc⟩] else []
      | none => [⟨columnId, Direction.asc⟩]
    else
      match existingSort with
      | some e =>
        if e.direction = Direction.asc then
          s.sort.map (fun d =>
            if d.columnId == columnId then { d with direction := Direction.desc } else d)
        else
          s.sort.filter (fun d => not (d.columnId == columnId))
      | none => s.sort ++ [⟨columnId, Direction.asc⟩]
  let sorted := sortRows { s with sort := newSort }
  { s with sort := newSort, rowOrder := sorted }

/-- `resizeColumn(columnId, width)`: stores `max(50, width)`. -/
def resizeColumn (s : GridState) (columnId : String) (width : Int) : GridState :=
  { s with columnWidths := alistSet s.columnWidths columnId (max 50 width) }

/-- `toggleColumnVisibility(columnId)`: stores
`!prev.columnVisibility[columnId]`. In JS the stored operand of `!` is a
boolean or `undefined`; its truthiness is `(lookup).getD false`, so an
absent entry is negated to `true`. -/
def toggleColumnVisibility (s : GridState) (columnId : String) : GridState :=
  let flipped := not ((alistGet s.columnVisibility columnId).getD false)
  { s with columnVisibility := alistSet s.columnVisibility columnId flipped }

/-- Effective visibility of a column: explicit `false` hides, an explicit
`true` or an absent entry is visible (the default-true rule; the layout
engine reads it as `columnVisibility[id] !== false`). -/
def effectiveVisibility (cv : List (String × Bool)) (id : String) : Bool :=
  not (alistGet cv id == some false)

/-- `startEdit(rowId, colId, value)`. -/
def startEdit (s : GridState) (rowId : RowId) (colId : String) (value : JsVal) :
    GridState :=
  let cell : EditingState :=
    { rowId := rowId, colId := colId, value := value, originalValue := value
      isSaving := false, error := none }
  { s with editingCell := some cell }

/-- `updateEditValue(value)`: no-op without an active edit. -/
def updateEditValue (s : GridState) (value : JsVal) : GridState :=
  match s.editingCell with
  | none => s
  | some e => { s with editingCell := some { e with value := value, error := none } }

/-- `cancelEdit()`. -/
def cancelEdit (s : GridState) : GridState :=
  { s with editingCell := none }

/-- `setEditSaving(isSaving)`: no-op without an active edit. -/
def setEditSaving (s : GridState) (isSaving : Bool) : GridState :=
  match s.editingCell with
  | none => s
  | some e => { s with editingCell := some { e with isSaving := isSaving } }

/-- `setEditError(error)`: no-op without an active edit; also forces
`isSaving := false`. -/
def setEditError (s : GridState) (error : Option String) : GridState :=
  match s.editingCell with
  | none => s
  | some e =>
    { s with editingCell := some { e with error := error, isSaving := false } }

/-- The `rows.forEach` body of `setData`: `rowMap.set(id, row)` then
`rowOrder.push(id)`. -/
def setDataStep (getRowId : Row → RowId)
    (acc : List (RowId × Row) × List RowId) (row : Row) :
    List (RowId × Row) × List RowId :=
  (alistSet acc.1 (getRowId row) row, acc.2 ++ [getRowId row])

/-- The map/order pair `setData` builds from scratch before the optional
sort re-application. -/
def buildRowData (rows : List Row) (getRowId : Row → RowId) :
    List (RowId × Row) × List RowId :=
  rows.foldl (setDataStep getRowId) ([], [])

/-- `setData(rows, getRowId)`: rebuild `rowMap`/`rowOrder`; if a sort is
active, re-apply it to the new order. -/
def setData (s : GridState) (rows : List Row) (getRowId : Row → RowId) : GridState :=
  let built := buildRowData rows getRowId
  let next := { s with rowMap := built.1, rowOrder := built.2 }
  if s.sort = [] then next
  else { next with rowOrder := sortRows next }

/-- `updateRow(rowId, updates)`: no-op for a missing row, otherwise
shallow-merge the update fields into a replacement row object. -/
def updateRow (s : GridState) (rowId : RowId) (updates : List (String × JsVal)) :
    GridState :=
  match alistGet s.rowMap rowId with
  | none => s
  | some row =>
    let newRow := updates.foldl (fun r fv => setField r fv.1 fv.2) row
    { s with rowMap := alistSet s.rowMap rowId newRow }

/-- `commitEdit()`: no-op without an active edit; clears editing state if
the target row vanished; otherwise writes `value` at `colId` into a
replacement row and clears editing state. -/
def commitEdit (s : GridState) : GridState :=
  match s.editingCell with
  | none => s
  | some e =>
    match alistGet s.rowMap e.rowId with
    | none => { s with editingCell := none }
    | some row =>
      { s with
          rowMap := alistSet s.rowMap e.rowId (setField row e.colId e.value)
          editingCell := none }

/-- The failure path of `commit` in `GridCell.tsx`: capture the pre-edit
field value, optimistically `commitEdit`, then (after the external
`onCellEdit` rejects) `updateRow` restoring the captured value,
`startEdit` with the attempted value, and `setEditError` with the
failure message. -/
def cellEditFailure (s : GridState) (msg : String) : GridState :=
  match s.editingCell with
  | none => s
  | some e =>
    let oldValue :=
      match alistGet s.rowMap e.rowId with
      | some row => getField row e.colId
      | none => JsVal.undef
    let s1 := commitEdit s
    let s2 := updateRow s1 e.rowId [(e.colId, oldValue)]
    let s3 := startEdit s2 e.rowId e.colId e.value
    setEditError s3 (some msg)

/-! ## Row virtualizer (`virtual.ts`, `Virtualizer.calculateRange`) -/

/-- `VirtualItem` from `types.ts`; the source field `end` (a Lean keyword)
is called `stop` here, holding `(index + 1) * itemSize` as in the source. -/
structure VirtualItem where
  index : Int
  start : Int
  size : Int
  stop : Int
deriving DecidableEq, Repr

/-- `VirtualRange` from `types.ts`. -/
structure VirtualRange where
  startIndex : Int
  endIndex : Int
  items : List VirtualItem
  totalSize : Int
deriving DecidableEq, Repr

/-- `Math.ceil(a / b)` for integer `a` and positive integer `b`
(`Int.fdiv` is `Math.floor` of the real quotient). -/
def ceilDiv (a b : Int) : Int := -((-a).fdiv b)

/-- `Virtualizer.calculateRange`, with the accessors already evaluated:
`itemSize = estimateSize(0)` and `overscan` explicit (source default 5).
Pixel quantities are integers. -/
def calculateRange (count itemSize scrollOffset containerSize overscan : Int) :
    VirtualRange :=
  if count = 0 then { startIndex := 0, endIndex := 0, items := [], totalSize := 0 }
  else
    let totalSize := count * itemSize
    let startIndex := max 0 (scrollOffset.fdiv itemSize)
    let endIndex := min (count - 1) (ceilDiv (scrollOffset + containerSize) itemSize)
    let renderStartIndex := max 0 (startIndex - overscan)
    let renderEndIndex := min (count - 1) (endIndex + overscan)
    let items := (List.range (renderEndIndex + 1 - renderStartIndex).toNat).map
      (fun k =>
        let i : Int := renderStartIndex + k
        { index := i, start := i * itemSize, size := itemSize
          stop := (i + 1) * itemSize : VirtualItem })
    { startIndex := renderStartIndex, endIndex := renderEndIndex
      items := items, totalSize := totalSize }

/-! ## Column layout engine (`virtual.ts`, `ColumnVirtualizer.calculateLayout`) -/

/-- `'left' | 'right'`; the source's `isPinned: 'left' | 'right' | false`
becomes `Option PinSide`. -/
inductive PinSide where
  | left
  | right
deriving DecidableEq, Repr

/-- `VirtualColumn` from `virtual.ts` (`end` renamed `stop`). -/
structure VirtualColumn where
  index : Int
  id : String
  start : Int
  size : Int
  stop : Int
  isPinned : Option PinSide
  stickyOffset : Int
deriving DecidableEq, Repr

/-- `ColumnVirtualizerOptions` from `virtual.ts`; `columnVisibility` is an
optional parameter there, hence `Option`. `overscan` explicit
(source default 200). -/
structure ColumnVirtualizerOptions where
  columnOrder : List String
  columnWidths : List (String × Int)
  columnVisibility : Option (List (String × Bool))
  pinnedLeft : List String
  pinnedRight : List String
  scrollLeft : Int
  viewportWidth : Int
  overscan : Int
deriving Repr

/-- The visibility filter
`columnVisibility ? columnVisibility[id] !== false : true`. -/
def colVisible (cv : Option (List (String × Bool))) (id : String) : Bool :=
  match cv with
  | none => true
  | some vis => not (alistGet vis id == some false)

/-- `leftIds`: visible left-pinned columns, in `pinnedColumns.left` order. -/
def leftIds (o : ColumnVirtualizerOptions) : List String :=
  o.pinnedLeft.filter (colVisible o.columnVisibility)

/-- `rightIds`: visible right-pinned columns, in `pinnedColumns.right`
order. -/
def rightIds (o : ColumnVirtualizerOptions) : List String :=
  o.pinnedRight.filter (colVisible o.columnVisibility)

/-- `scrollableIds`: visible columns of `columnOrder` not in either
(unfiltered) pin list. -/
def scrollableIds (o : ColumnVirtualizerOptions) : List String :=
  o.columnOrder.filter (fun id =>
    not (o.pinnedLeft.contains id) && not (o.pinnedRight.contains id) &&
      colVisible o.columnVisibility id)

/-- `visualOrder = [...leftIds, ...scrollableIds, ...rightIds]`. -/
def visualOrder (o : ColumnVirtualizerOptions) : List String :=
  leftIds o ++ scrollableIds o ++ rightIds o

/-- `columnWidths[id] || 100`: a missing entry or the falsy width `0`
defaults to 100. -/
def widthOf (widths : List (String × Int)) (id : String) : Int :=
  match alistGet widths id with
  | none => 100
  | some w => if w = 0 then 100 else w

/-- The `rightStickyOffsets` map: walking `rightIds` right-to-left, the
rightmost gets offset 0 and each column accumulates the widths to its
right (`Map.set` semantics via `alistSet`). -/
def rightStickyOffsets (o : ColumnVirtualizerOptions) : List (String × Int) :=
  ((rightIds o).reverse.foldl
    (fun (p : List (String × Int) × Int) id =>
      (alistSet p.1 id p.2, p.2 + widthOf o.columnWidths id)) ([], 0)).1

/-- The main `visualOrder.forEach` walk: threads `currentOffset`,
`leftStickyAccumulator` and the visual `index`, emitting a column when
`shouldRender` holds (always for pinned columns, by viewport intersection
for scrollable ones). -/
def layoutLoop (o : ColumnVirtualizerOptions) :
    List String → Int → Int → Int → List VirtualColumn
  | [], _, _, _ => []
  | id :: rest, currentOffset, leftAcc, index =>
    let width := widthOf o.columnWidths id
    let colStart := currentOffset
    let colStop := colStart + width
    if (leftIds o).contains id then
      { index := index, id := id, start := colStart, size := width, stop := colStop
        isPinned := some PinSide.left, stickyOffset := leftAcc }
        :: layoutLoop o rest (currentOffset + width) (leftAcc + width) (index + 1)
    else if (rightIds o).contains id then
      { index := index, id := id, start := colStart, size := width, stop := colStop
        isPinned := some PinSide.right
        stickyOffset := (alistGet (rightStickyOffsets o) id).getD 0 }
        :: layoutLoop o rest (currentOffset + width) leftAcc (index + 1)
    else if o.scrollLeft - o.overscan ≤ colStop ∧
        colStart ≤ o.scrollLeft + o.viewportWidth + o.overscan then
      { index := index, id := id, start := colStart, size := width, stop := colStop
        isPinned := none, stickyOffset := 0 }
        :: layoutLoop o rest (currentOffset + width) leftAcc (index + 1)
    else
      layoutLoop o rest (currentOffset + width) leftAcc (index + 1)

/-- `ColumnVirtualizer.calculateLayout`: the rendered columns plus
`totalWidth`, the final `currentOffset` (every loop iteration adds its
width whether or not the column rendered, so it is the width sum over the
visual order). -/
def calculateLayout (o : ColumnVirtualizerOptions) : List VirtualColumn × Int :=
  (layoutLoop o (visualOrder o) 0 0 0,
   (visualOrder o).foldl (fun acc id => acc + widthOf o.columnWidths id) 0)

/-! ## Listener notification (`store.ts`, `subscribe` / `notify`)

`notify` runs `this.listeners.forEach(listener => listener(this.state))`
on the live `Set`. Per JS `Set` iteration semantics, values added during
a `forEach` pass are visited by that pass, and values deleted before
being visited are skipped. The model keeps the set as
`processed ++ pending` (insertion order) with the iteration cursor at the
head of `pending`; a listener's calls to `subscribe`/unsubscribe during
its own invocation are its `SetOp` effect list. Fuel bounds the
iteration, which in JS can be prolonged (or made infinite) by re-adding
deleted listeners; every claimed scenario terminates within the given
fuel. -/

/-- A `subscribe` (`add`) or unsubscribe (`del`) call made by a listener
during notification; listeners are named by `Nat`. -/
inductive SetOp where
  | add (i : Nat)
  | del (i : Nat)
deriving DecidableEq, Repr

/-- The behaviour environment: what each listener does when invoked. -/
abbrev ListenerEffects := List (Nat × List SetOp)

/-- Effect of listener `i` (default: does nothing). -/
def effectOf (env : ListenerEffects) (i : Nat) : List SetOp :=
  (alistGet env i).getD []

/-- One `Set` mutation during iteration: `add` on a present value is a
no-op, otherwise appends to the not-yet-visited part; `del` removes from
either part. -/
def applyOp (processed pending : List Nat) : SetOp → List Nat × List Nat
  | SetOp.add i =>
    if processed.contains i || pending.contains i then (processed, pending)
    else (processed, pending ++ [i])
  | SetOp.del i => (processed.erase i, pending.erase i)

/-- Apply a listener's effect list in order. -/
def applyOps (processed pending : List Nat) (ops : List SetOp) :
    List Nat × List Nat :=
  ops.foldl (fun p op => applyOp p.1 p.2 op) (processed, pending)

/-- The fueled iteration of `Set.prototype.forEach` over a mutating set;
returns the invocation order. -/
def notifyAux (env : ListenerEffects) :
    Nat → List Nat → List Nat → List Nat → List Nat
  | 0, _, _, visited => visited
  | fuel + 1, processed, pending, visited =>
    match pending with
    | [] => visited
    | p :: rest =>
      let next := applyOps (processed ++ [p]) rest (effectOf env p)
      notifyAux env fuel next.1 next.2 (visited ++ [p])

/-- Total number of effect operations, part of the fuel bound. -/
def opsLen (env : ListenerEffects) : Nat :=
  (env.map (fun e => e.2.length)).sum

/-- One notification pass of `notify` over the registered listeners:
the sequence of listeners invoked. -/
def notifyPass (env : ListenerEffects) (listeners : List Nat) : List Nat :=
  notifyAux env (listeners.length + opsLen env) [] listeners []

/-! ## Specification-side definitions and concrete test states -/

/-- Specification side of the duplicate-id claim: the last row in input
order whose id under `getRowId` is the given one. -/
def lastRowWithId (rows : List Row) (getRowId : Row → RowId) (id : RowId) :
    Option Row :=
  rows.reverse.find? (fun r => getRowId r == id)

/-- A one-row state mid-edit: row `1` has `name = "old"`, the editor holds
the attempted value `"new"`. -/
def demoEdit : EditingState :=
  { rowId := RowId.num 1, colId := "name", value := JsVal.str "new"
    originalValue := JsVal.str "old", isSaving := false, error := none }

def demoEditState : GridState :=
  { emptyState with
    rowMap := [(RowId.num 1, [("name", JsVal.str "old")])]
    rowOrder := [RowId.num 1]
    editingCell := some demoEdit }

/-- Two rows sorted descending on `"c"`: row `1` has `c = 1`, row `2` has
`c = null`. -/
def nullSortState : GridState :=
  { emptyState with
    rowMap := [(RowId.num 1, [("c", JsVal.num 1)]), (RowId.num 2, [("c", JsVal.null)])]
    rowOrder := [RowId.num 1, RowId.num 2]
    sort := [⟨"c", Direction.desc⟩] }

/-- Two rows already sorted descending on `"v"` (insertion order was
`[1, 2]`, displayed order `[2, 1]`). -/
def descSortedState : GridState :=
  { emptyState with
    rowMap := [(RowId.num 1, [("v", JsVal.num 1)]), (RowId.num 2, [("v", JsVal.num 2)])]
    rowOrder := [RowId.num 2, RowId.num 1]
    sort := [⟨"v", Direction.desc⟩] }

/-- A state with one explicitly visible column entry. -/
def visibleColState : GridState :=
  { emptyState with columnVisibility := [("a", true)] }

/-! ## Supporting lemmas -/

theorem alistGet_alistSet {κ ν : Type} [DecidableEq κ]
    (m : List (κ × ν)) (k k' : κ) (v : ν) :
    alistGet (alistSet m k v) k' = if k = k' then some v else alistGet m k' := by
  by_cases h : k = k'
  · subst h; simp
  · simp [alistGet_alistSet_ne m k k' v (Ne.symm h), h]

theorem strictEq_comm (x y : JsVal) : strictEq x y = strictEq y x := by
  cases x <;> cases y <;> simp [strictEq, BEq.comm]

theorem buildRowData_order (f : Row → RowId) :
    ∀ (rows : List Row) (m : List (RowId × Row)) (ord : List RowId),
      (rows.foldl (setDataStep f) (m, ord)).2 = ord ++ rows.map f := by
  intro rows
  induction rows with
  | nil => intro m ord; simp
  | cons r rest ih =>
    intro m ord
    simp [setDataStep, ih (alistSet m (f r) r) (ord ++ [f r])]

theorem buildRowData_get (f : Row → RowId) :
    ∀ (rows : List Row) (m : List (RowId × Row)) (ord : List RowId) (id : RowId),
      alistGet (rows.foldl (setDataStep f) (m, ord)).1 id =
        (lastRowWithId rows f id <|> alistGet m id) := by
  intro rows
  induction rows with
  | nil => intro m ord id; simp [lastRowWithId]
  | cons r rest ih =>
    intro m ord id
    have step : (r :: rest).foldl (setDataStep f) (m, ord) =
        rest.foldl (setDataStep f) (alistSet m (f r) r, ord ++ [f r]) := rfl
    rw [step, ih]
    have hsingle : ([r].find? (fun r => f r == id)) =
        (if f r = id then some r else none) := by
      by_cases hfr : f r = id
      · simp [List.find?, hfr]
      · have hbeq : (f r == id) = false := by simp [hfr]
        simp [List.find?, hbeq, hfr]
    have hlast : lastRowWithId (r :: rest) f id =
        (lastRowWithId rest f id <|>
          (if f r = id then some r else none)) := by
      simp only [lastRowWithId, List.reverse_cons, List.find?_append, hsingle]
      cases hfind : (rest.reverse.find? (fun r => f r == id)) <;>
        simp [Option.orElse]
    rw [hlast]
    cases hfind : lastRowWithId rest f id <;>
      by_cases hfr : f r = id <;>
        simp [alistGet_alistSet, hfr, Option.orElse]

/-! ## Claims -/

/-- **C7.** `commitEdit` is a no-op on grid data when `editingCell` is
null; with an active edit whose row id is absent from `rowMap` it clears
`editingCell` while leaving `rowMap` unchanged; otherwise it produces a
`rowMap` in which exactly the entry for `editingCell.rowId` is replaced
by a row whose field at `colId` equals `editingCell.value`, and clears
`editingCell`. -/
theorem commitEdit_cases (s : GridState) :
    (s.editingCell = none → commitEdit s = s) ∧
    (∀ e, s.editingCell = some e → alistGet s.rowMap e.rowId = none →
      commitEdit s = { s with editingCell := none }) ∧
    (∀ e row, s.editingCell = some e → alistGet s.rowMap e.rowId = some row →
      (commitEdit s).editingCell = none ∧
      (∀ id, alistGet (commitEdit s).rowMap id =
        if id = e.rowId then some (setField row e.colId e.value)
        else alistGet s.rowMap id) ∧
      getField (setField row e.colId e.value) e.colId = e.value) := by
  refine ⟨fun h => by simp [commitEdit, h],
    fun e he hr => by simp [commitEdit, he, hr],
    fun e row he hr => ⟨by simp [commitEdit, he, hr], fun id => ?_, by simp⟩⟩
  by_cases hid : id = e.rowId
  · subst hid; simp [commitEdit, he, hr]
  · simp [commitEdit, he, hr, hid,
      alistGet_alistSet_ne s.rowMap e.rowId id _ hid]

/-- Witness for C7: the replace branch at a concrete one-row state. -/
theorem commitEdit_cases_witness :
    (commitEdit demoEditState).editingCell = none ∧
    (∀ id, alistGet (commitEdit demoEditState).rowMap id =
      if id = RowId.num 1 then
        some (setField [("name", JsVal.str "old")] "name" (JsVal.str "new"))
      else alistGet demoEditState.rowMap id) ∧
    getField (setField [("name", JsVal.str "old")] "name" (JsVal.str "new")) "name" =
      JsVal.str "new" :=
  (commitEdit_cases demoEditState).2.2 demoEdit [("name", JsVal.str "old")] rfl rfl

/-- **C1.** Edit rollback: from a state with an active edit on an
existing row, the failure sequence of `GridCell.commit` (optimistic
`commitEdit`, then `updateRow` restoring the captured pre-edit value,
`startEdit` with the attempted value, `setEditError` with the message)
leaves the row's field at `colId` equal to its pre-edit value, and
`editingCell` non-null with the error set, `isSaving` false, and `value`
equal to the attempted (not the original) value. -/
theorem cellEditFailure_rollback (s : GridState) (e : EditingState) (row : Row)
    (msg : String) (he : s.editingCell = some e)
    (hr : alistGet s.rowMap e.rowId = some row) :
    (∃ row', alistGet (cellEditFailure s msg).rowMap e.rowId = some row' ∧
      getField row' e.colId = getField row e.colId) ∧
    ∃ ec, (cellEditFailure s msg).editingCell = some ec ∧
      ec.error = some msg ∧ ec.isSaving = false ∧ ec.value = e.value := by
  simp only [cellEditFailure, he, hr, commitEdit, updateRow, startEdit, setEditError,
    alistGet_alistSet_self, List.foldl_cons, List.foldl_nil]
  exact ⟨⟨_, rfl, by simp⟩, ⟨_, rfl, rfl, rfl, rfl⟩⟩

/-- Witness for C1 at the concrete one-row mid-edit state. -/
theorem cellEditFailure_rollback_witness :
    (∃ row', alistGet (cellEditFailure demoEditState "boom").rowMap (RowId.num 1) =
        some row' ∧
      getField row' "name" = getField [("name", JsVal.str "old")] "name") ∧
    ∃ ec, (cellEditFailure demoEditState "boom").editingCell = some ec ∧
      ec.error = some "boom" ∧ ec.isSaving = false ∧ ec.value = JsVal.str "new" :=
  cellEditFailure_rollback demoEditState demoEdit [("name", JsVal.str "old")]
    "boom" rfl rfl

/-- **C2 counterexample.** The claim says null/undefined sorts after any
non-null value regardless of direction. Under a descending descriptor the
comparator returns `1 * direction = -1` for a null left value, placing
the null row before the non-null row, and `sortRows` on a concrete
two-row state moves the null row to the front. -/
theorem rowCompare_null_desc_counterexample :
    rowCompare [⟨"c", Direction.desc⟩]
      [("c", JsVal.null)] [("c", JsVal.num 1)] = -1 ∧
    ¬ 0 < rowCompare [⟨"c", Direction.desc⟩]
      [("c", JsVal.null)] [("c", JsVal.num 1)] ∧
    sortRows nullSortState = [RowId.num 2, RowId.num 1] := by decide

/-- **C2 amended.** When the compared values differ and exactly one is
null/undefined, the nullish value sorts after the other under an
ascending descriptor but before it under a descending one: the comparator
multiplies its null result by the direction sign. -/
theorem rowCompare_null_direction (s : SortDescriptor)
    (rest : List SortDescriptor) (a b : Row)
    (hne : strictEq (getField a s.columnId) (getField b s.columnId) = false)
    (ha : isNullish (getField a s.columnId) = true)
    (hb : isNullish (getField b s.columnId) = false) :
    rowCompare (s :: rest) a b = (if s.direction = Direction.asc then 1 else -1) ∧
    rowCompare (s :: rest) b a = (if s.direction = Direction.asc then -1 else 1) := by
  have hne' : strictEq (getField b s.columnId) (getField a s.columnId) = false := by
    rw [strictEq_comm]; exact hne
  cases hdir : s.direction <;>
    simp [rowCompare, hne, hne', ha, hb, hdir]

/-- Witness for the amended C2 at a concrete descending descriptor. -/
theorem rowCompare_null_direction_witness :
    rowCompare [⟨"c", Direction.desc⟩] [("c", JsVal.null)] [("c", JsVal.num 1)] =
      (if Direction.desc = Direction.asc then 1 else -1) ∧
    rowCompare [⟨"c", Direction.desc⟩] [("c", JsVal.num 1)] [("c", JsVal.null)] =
      (if Direction.desc = Direction.asc then -1 else 1) :=
  rowCompare_null_direction ⟨"c", Direction.desc⟩ [] [("c", JsVal.null)]
    [("c", JsVal.num 1)] (by decide) (by decide) (by decide)

/-- **C3 counterexample.** The raw start index is clamped only from
below (`Math.max(0, ...)`), so a scroll offset at or beyond `totalSize`
yields `startIndex > endIndex`, and a negative offset yields a negative
`endIndex`: the claimed bounds fail outside `[0, totalSize)`. -/
theorem calculateRange_counterexample :
    ¬ ((calculateRange 1 1 5 0 0).startIndex ≤ (calculateRange 1 1 5 0 0).endIndex) ∧
    (calculateRange 1 1 5 0 0).startIndex = 5 ∧
    (calculateRange 1 1 5 0 0).endIndex = 0 ∧
    (calculateRange 10 10 (-100) 50 0).endIndex = -5 := by decide

/-- **C5.** Million-row property: at the maximum scroll offset
`totalSize - containerSize` with `count = 1000000`, `itemSize = 35`,
`containerSize = 800` and the default overscan 5, the last row is the end
of the range and the number of emitted items stays under 100. -/
theorem calculateRange_million_rows :
    (calculateRange 1000000 35 (1000000 * 35 - 800) 800 5).endIndex = 1000000 - 1 ∧
    (calculateRange 1000000 35 (1000000 * 35 - 800) 800 5).items.length < 100 := by
  decide

/-- **C8.** `setData` under duplicate row ids: the resulting `rowMap`
holds, for each id, the last row in input order bearing it, and the
`rowOrder` built before any sort re-application lists the id once per
occurrence in the input. -/
theorem setData_duplicate_ids (rows : List Row) (f : Row → RowId) (s : GridState) :
    (buildRowData rows f).2 = rows.map f ∧
    ∀ id, alistGet (setData s rows f).rowMap id = lastRowWithId rows f id := by
  constructor
  · simpa [buildRowData] using buildRowData_order f rows [] []
  · intro id
    have hmap : (setData s rows f).rowMap = (buildRowData rows f).1 := by
      unfold setData
      split <;> rfl
    rw [hmap]
    have h := buildRowData_get f rows [] [] id
    cases hfind : lastRowWithId rows f id <;>
      simpa [buildRowData, hfind, alistGet, Option.orElse] using h

/-- **C9 counterexample.** Toggling a column with no entry in
`columnVisibility` stores `!undefined = true`: the column was effectively
visible and stays effectively visible, instead of becoming hidden as the
claim requires. -/
theorem toggleColumnVisibility_counterexample :
    effectiveVisibility emptyState.columnVisibility "a" = true ∧
    effectiveVisibility (toggleColumnVisibility emptyState "a").columnVisibility "a" =
      true ∧
    alistGet (toggleColumnVisibility emptyState "a").columnVisibility "a" =
      some true := by decide

/-- **C9 amended.** `toggleColumnVisibility` stores the negation of the
raw stored value (an absent entry negates to `true`): for a column with
an explicit entry this flips effective visibility, while a column absent
from `columnVisibility` is set to `true` and remains effectively
visible; other columns' entries are untouched. -/
theorem toggleColumnVisibility_flip (s : GridState) (cid : String) :
    alistGet (toggleColumnVisibility s cid).columnVisibility cid =
      some (not ((alistGet s.columnVisibility cid).getD false)) ∧
    (∀ b, alistGet s.columnVisibility cid = some b →
      effectiveVisibility s.columnVisibility cid = b ∧
      effectiveVisibility (toggleColumnVisibility s cid).columnVisibility cid =
        not b) ∧
    (alistGet s.columnVisibility cid = none →
      effectiveVisibility (toggleColumnVisibility s cid).columnVisibility cid =
        true) ∧
    (∀ cid', cid' ≠ cid →
      alistGet (toggleColumnVisibility s cid).columnVisibility cid' =
        alistGet s.columnVisibility cid') := by
  refine ⟨by simp [toggleColumnVisibility], fun b hb => ?_, fun hb => ?_,
    fun cid' hne => by
      simp [toggleColumnVisibility, alistGet_alistSet_ne _ _ _ _ hne]⟩
  · cases b <;> simp [toggleColumnVisibility, effectiveVisibility, hb]
  · simp [toggleColumnVisibility, effectiveVisibility, hb]

/-- Witness for the amended C9 at a state with an explicit `true` entry. -/
theorem toggleColumnVisibility_flip_witness :
    alistGet (toggleColumnVisibility visibleColState "a").columnVisibility "a" =
      some (not ((alistGet visibleColState.columnVisibility "a").getD false)) ∧
    (∀ b, alistGet visibleColState.columnVisibility "a" = some b →
      effectiveVisibility visibleColState.columnVisibility "a" = b ∧
      effectiveVisibility
        (toggleColumnVisibility visibleColState "a").columnVisibility "a" = not b) ∧
    (alistGet visibleColState.columnVisibility "a" = none →
      effectiveVisibility
        (toggleColumnVisibility visibleColState "a").columnVisibility "a" = true) ∧
    (∀ cid', cid' ≠ "a" →
      alistGet (toggleColumnVisibility visibleColState "a").columnVisibility cid' =
        alistGet visibleColState.columnVisibility cid') :=
  toggleColumnVisibility_flip visibleColState "a"

/-- **C10.** When `toggleSort(columnId, false)` removes the last
remaining sort descriptor (the descending-to-unsorted step), `rowOrder`
is value-equal to the order immediately before the call: `sortRows` with
an empty descriptor list returns the current order, so the last sorted
order is kept and the insertion order is not restored. -/
theorem toggleSort_remove_last (s : GridState) (cid : String)
    (h : s.sort = [⟨cid, Direction.desc⟩]) :
    (toggleSort s cid false).rowOrder = s.rowOrder ∧
    (toggleSort s cid false).sort = [] := by
  simp [toggleSort, h, sortRows, List.find?]

/-- Witness for C10 at a two-row state sorted descending (display order
`[2, 1]` differing from the insertion order `[1, 2]`). -/
theorem toggleSort_remove_last_witness :
    (toggleSort descSortedState "v" false).rowOrder = descSortedState.rowOrder ∧
    (toggleSort descSortedState "v" false).sort = [] :=
  toggleSort_remove_last descSortedState "v" rfl

/-- **C4 counterexample.** `notify` iterates the live `Set` (no
snapshot): a listener subscribed by listener `0` during the pass is
invoked in that very pass, and a listener unsubscribed by listener `0`
before being reached is skipped — the opposite of the claimed
fixed-at-pass-start semantics on both counts. -/
theorem notifyPass_counterexample :
    notifyPass [(0, [SetOp.add 1])] [0] = [0, 1] ∧
    notifyPass [(0, [SetOp.del 1])] [0, 1] = [0] := by decide

/-- **C4 amended.** The listener set is live during a notification pass:
a fresh listener subscribed by an invoked listener is appended to the
iteration and called in the same pass, and a registered listener
unsubscribed before being reached is not called. -/
theorem notifyPass_live (a b : Nat) (hab : a ≠ b) :
    notifyPass [(a, [SetOp.add b])] [a] = [a, b] ∧
    notifyPass [(a, [SetOp.del b])] [a, b] = [a] := by
  have hba : b ≠ a := Ne.symm hab
  have hbeq : (a == b) = false := by simp [hab]
  have hbeq' : (b == a) = false := by simp [hba]
  constructor
  · simp [notifyPass, opsLen, notifyAux, applyOps, applyOp, effectOf, alistGet,
      hab, hba, hbeq, hbeq', List.contains, List.elem]
  · simp [notifyPass, opsLen, notifyAux, applyOps, applyOp, effectOf, alistGet,
      hab, hba, hbeq, hbeq', List.contains, List.elem, List.erase]

/-- Witness for the amended C4 at listeners `0` and `1`. -/
theorem notifyPass_live_witness :
    notifyPass [(0, [SetOp.add 1])] [0] = [0, 1] ∧
    notifyPass [(0, [SetOp.del 1])] [0, 1] = [0] :=
  notifyPass_live 0 1 (by decide)

/-- **C3 amended.** For `count ≥ 1`, `itemSize > 0`, `overscan ≥ 0` and a
scroll offset within the content (`0 ≤ scrollOffset < totalSize`) with a
non-negative container size, the range satisfies
`0 ≤ startIndex ≤ endIndex ≤ count - 1`, and every emitted item has
`start = index * itemSize` and `end = start + itemSize`. (The original
claim extended the bounds to offsets beyond `totalSize` and negative
offsets, where they fail: the raw start index is clamped from below
only.) -/
theorem calculateRange_bounds
    (count itemSize scrollOffset containerSize overscan : Int)
    (hc : 1 ≤ count) (hi : 0 < itemSize) (hov : 0 ≤ overscan)
    (hso : 0 ≤ scrollOffset) (hmax : scrollOffset < count * itemSize)
    (hcs : 0 ≤ containerSize) :
    0 ≤ (calculateRange count itemSize scrollOffset containerSize overscan).startIndex ∧
    (calculateRange count itemSize scrollOffset containerSize overscan).startIndex ≤
      (calculateRange count itemSize scrollOffset containerSize overscan).endIndex ∧
    (calculateRange count itemSize scrollOffset containerSize overscan).endIndex ≤
      count - 1 ∧
    ∀ it ∈ (calculateRange count itemSize scrollOffset containerSize overscan).items,
      it.start = it.index * itemSize ∧ it.stop = it.start + itemSize := by
  have hc0 : ¬ count = 0 := by omega
  have hfd : scrollOffset.fdiv itemSize = scrollOffset / itemSize :=
    Int.fdiv_eq_ediv _ (le_of_lt hi)
  have hA0 : 0 ≤ scrollOffset / itemSize := Int.ediv_nonneg hso (le_of_lt hi)
  have hAlt : scrollOffset / itemSize < count :=
    (Int.ediv_lt_iff_lt_mul hi).mpr hmax
  have hAle : scrollOffset / itemSize ≤ count - 1 := by omega
  have hBfd : ((-(scrollOffset + containerSize)).fdiv itemSize) =
      (-(scrollOffset + containerSize)) / itemSize :=
    Int.fdiv_eq_ediv _ (le_of_lt hi)
  have hq : ((-(scrollOffset + containerSize)) / itemSize) * itemSize ≤
      -(scrollOffset + containerSize) := Int.ediv_mul_le _ (by omega)
  have hAB : scrollOffset / itemSize ≤ ceilDiv (scrollOffset + containerSize) itemSize := by
    have h1 : (scrollOffset / itemSize) * itemSize ≤ scrollOffset :=
      Int.ediv_mul_le _ (by omega)
    have h3 : scrollOffset + containerSize ≤
        ceilDiv (scrollOffset + containerSize) itemSize * itemSize := by
      unfold ceilDiv
      rw [hBfd]
      nlinarith
    have h4 : (scrollOffset / itemSize) * itemSize ≤
        ceilDiv (scrollOffset + containerSize) itemSize * itemSize := by nlinarith
    exact le_of_mul_le_mul_right h4 hi
  have hmaxA : max 0 (scrollOffset / itemSize) = scrollOffset / itemSize :=
    max_eq_right hA0
  simp only [calculateRange, if_neg hc0, hfd, hmaxA]
  refine ⟨le_max_left _ _, ?_, min_le_left _ _, ?_⟩
  · have hrs : max 0 (scrollOffset / itemSize - overscan) ≤ scrollOffset / itemSize :=
      max_le hA0 (by linarith)
    have hmid : scrollOffset / itemSize ≤
        min (count - 1) (ceilDiv (scrollOffset + containerSize) itemSize) :=
      le_min hAle hAB
    have hre : min (count - 1) (ceilDiv (scrollOffset + containerSize) itemSize) ≤
        min (count - 1)
          (min (count - 1) (ceilDiv (scrollOffset + containerSize) itemSize) + overscan) :=
      le_min (min_le_left _ _) (by linarith)
    exact le_trans hrs (le_trans hmid hre)
  · intro it hit
    simp only [List.mem_map, List.mem_range] at hit
    obtain ⟨k, hk, rfl⟩ := hit
    constructor
    · rfl
    · show ((max 0 (scrollOffset / itemSize - overscan) + k) + 1) * itemSize =
        (max 0 (scrollOffset / itemSize - overscan) + k) * itemSize + itemSize
      ring

/-- Witness for the amended C3 at the spec's own example
(`count = 1000`, `itemSize = 40`, `scrollOffset = 100`,
`containerSize = 400`, `overscan = 2`). -/
theorem calculateRange_bounds_witness :
    0 ≤ (calculateRange 1000 40 100 400 2).startIndex ∧
    (calculateRange 1000 40 100 400 2).startIndex ≤
      (calculateRange 1000 40 100 400 2).endIndex ∧
    (calculateRange 1000 40 100 400 2).endIndex ≤ 1000 - 1 ∧
    ∀ it ∈ (calculateRange 1000 40 100 400 2).items,
      it.start = it.index * 40 ∧ it.stop = it.start + 40 :=
  calculateRange_bounds 1000 40 100 400 2 (by decide) (by decide) (by decide)
    (by decide) (by decide) (by decide)

/-- Splitting the layout walk at a list boundary: the walk over
`xs ++ ys` is the walk over `xs` followed by the walk over `ys` with some
threaded offset, accumulator and index. -/
theorem layoutLoop_append (o : ColumnVirtualizerOptions) (xs ys : List String) :
    ∀ (off acc idx : Int), ∃ off' acc' idx',
      layoutLoop o (xs ++ ys) off acc idx =
        layoutLoop o xs off acc idx ++ layoutLoop o ys off' acc' idx' := by
  induction xs with
  | nil => intro off acc idx; exact ⟨off, acc, idx, by simp [layoutLoop]⟩
  | cons id rest ih =>
    intro off acc idx
    by_cases hL : id ∈ leftIds o
    · obtain ⟨o', a', i', heq⟩ := ih (off + widthOf o.columnWidths id)
        (acc + widthOf o.columnWidths id) (idx + 1)
      refine ⟨o', a', i', ?_⟩
      simp [layoutLoop, hL, heq]
    · obtain ⟨o', a', i', heq⟩ := ih (off + widthOf o.columnWidths id) acc (idx + 1)
      refine ⟨o', a', i', ?_⟩
      by_cases hR : id ∈ rightIds o
      · simp [layoutLoop, hL, hR, heq]
      · simp [layoutLoop, hL, hR, heq]
        try split <;> simp

/-- Every pinned column renders: over a list of ids each belonging to
`leftIds` or `rightIds`, the walk emits exactly those ids in order. -/
theorem layoutLoop_pinned_ids (o : ColumnVirtualizerOptions) :
    ∀ (ids : List String),
      (∀ id ∈ ids, id ∈ leftIds o ∨ id ∈ rightIds o) →
      ∀ (off acc idx : Int),
        (layoutLoop o ids off acc idx).map (fun c => c.id) = ids := by
  intro ids
  induction ids with
  | nil => intro _ off acc idx; simp [layoutLoop]
  | cons id rest ih =>
    intro h off acc idx
    have hrest : ∀ x ∈ rest, x ∈ leftIds o ∨ x ∈ rightIds o :=
      fun x hx => h x (by simp [hx])
    rcases h id (by simp) with hL | hR
    · simp [layoutLoop, hL, ih hrest]
    · by_cases hL : id ∈ leftIds o
      · simp [layoutLoop, hL, ih hrest]
      · simp [layoutLoop, hL, hR, ih hrest]

/-- The emitted ids form a subsequence of the walked ids (scrollable
columns may be culled, never reordered). -/
theorem layoutLoop_ids_sublist (o : ColumnVirtualizerOptions) :
    ∀ (ids : List String) (off acc idx : Int),
      ((layoutLoop o ids off acc idx).map (fun c => c.id)).Sublist ids := by
  intro ids
  induction ids with
  | nil => intro off acc idx; simp [layoutLoop]
  | cons id rest ih =>
    intro off acc idx
    by_cases hL : id ∈ leftIds o
    · simpa [layoutLoop, hL] using (ih _ _ _).cons₂ id
    · by_cases hR : id ∈ rightIds o
      · simpa [layoutLoop, hL, hR] using (ih _ _ _).cons₂ id
      · simp only [layoutLoop]
        simp [hL, hR]
        split
        · simpa using (ih _ _ _).cons₂ id
        · exact (ih _ _ _).cons id

/-- **C6.** The output columns follow the visual order
left-pinned ++ scrollable ++ right-pinned: the visible left-pinned ids
open `virtualColumns` in `pinnedColumns.left` order regardless of their
`columnOrder` position, the visible right-pinned ids close it in
`pinnedColumns.right` order, and the middle is a subsequence of the
visible scrollable ids. -/
theorem calculateLayout_pin_order (o : ColumnVirtualizerOptions) :
    ∃ mid, ((calculateLayout o).1.map (fun c => c.id)) =
      leftIds o ++ (mid ++ rightIds o) ∧ mid.Sublist (scrollableIds o) := by
  obtain ⟨o1, a1, i1, h1⟩ :=
    layoutLoop_append o (leftIds o) (scrollableIds o ++ rightIds o) 0 0 0
  obtain ⟨o2, a2, i2, h2⟩ := layoutLoop_append o (scrollableIds o) (rightIds o) o1 a1 i1
  have hL : (layoutLoop o (leftIds o) 0 0 0).map (fun c => c.id) = leftIds o :=
    layoutLoop_pinned_ids o (leftIds o) (fun id hid => Or.inl hid) 0 0 0
  have hR : (layoutLoop o (rightIds o) o2 a2 i2).map (fun c => c.id) = rightIds o :=
    layoutLoop_pinned_ids o (rightIds o) (fun id hid => Or.inr hid) o2 a2 i2
  refine ⟨(layoutLoop o (scrollableIds o) o1 a1 i1).map (fun c => c.id), ?_,
    layoutLoop_ids_sublist o _ o1 a1 i1⟩
  have hvis : visualOrder o = leftIds o ++ (scrollableIds o ++ rightIds o) := by
    simp [visualOrder]
  calc (calculateLayout o).1.map (fun c => c.id)
      = (layoutLoop o (leftIds o ++ (scrollableIds o ++ rightIds o)) 0 0 0).map
          (fun c => c.id) := by
        simp [calculateLayout, hvis]
    _ = leftIds o ++
        ((layoutLoop o (scrollableIds o) o1 a1 i1).map (fun c => c.id) ++ rightIds o) := by
        rw [h1, h2]
        simp [hL, hR]

end DataGrid
